import Mathlib

/-!
Shallow embedding of the `orbit-rs` markdown-to-hypertext converter
(`src/main.rs`, `src/orbit.rs`).  Strings are modelled as `List Char`;
byte positions in the Rust source are modelled at character granularity
(every string constant the claims touch is ASCII apart from the literal
back-arrow mojibake, which is irrelevant to any position arithmetic).
Machine integers (`u32`, `usize`) stay within tiny ranges here, so they
are modelled as `Nat`.  Rust panics (out-of-bounds indexing, `unwrap`)
are modelled as `Option.none`; `Result`/`?` propagation as `Except`.
-/

abbrev Str := List Char

/-- countNewlines counts the `'\n'` characters of a text, used to state the
frontmatter-skipper contract. -/
def countNewlines (s : Str) : Nat := s.count '\n'

/-- skipNewlines models the frontmatter-skipping loop of
`walk_markdown_directory` (`main.rs` lines 53-64): repeatedly inspect the
next byte, counting newlines, until `n` newlines have been consumed, and
return the remaining text; running off the end of the text (the Rust
`markdown_bytes[idx]` out-of-bounds panic) is `none`. -/
def skipNewlines : Str → Nat → Option Str
  | cs, 0 => some cs
  | [], _ + 1 => none
  | c :: rest, n + 1 =>
      if c = '\n' then skipNewlines rest n else skipNewlines rest (n + 1)

/-- replaceAllFuel is the fuel-indexed worker behind `replaceAll`; the fuel
only makes the recursion structural and is always sufficient when it starts
at the text's length (each step consumes at least one character). -/
def replaceAllFuel : Nat → Str → Str → Str → Str
  | 0, _, _, s => s
  | _ + 1, _, _, [] => []
  | fuel + 1, pat, repl, c :: rest =>
      if pat ≠ [] ∧ pat.isPrefixOf (c :: rest) then
        repl ++ replaceAllFuel fuel pat repl ((c :: rest).drop pat.length)
      else
        c :: replaceAllFuel fuel pat repl rest

/-- replaceAll models Rust `str::replace`: replace every non-overlapping
occurrence of `pat` in `s` by `repl`, scanning left to right. -/
def replaceAll (pat repl : Str) (s : Str) : Str :=
  replaceAllFuel s.length pat repl s

/-- containsSub decides whether `pat` occurs as a contiguous substring of
`s`. -/
def containsSub (pat : Str) (s : Str) : Bool :=
  match s with
  | [] => pat.isEmpty
  | _ :: rest => pat.isPrefixOf s || containsSub pat rest

/-- mdSuffix is the literal `.md` suffix tested by the link rewrites. -/
def mdSuffix : Str := ['.', 'm', 'd']

/-- htmlSuffix is the literal `.html` replacement used by the link
rewrites. -/
def htmlSuffix : Str := ['.', 'h', 't', 'm', 'l']

/-- rewriteDest models the link-destination rewrite shared by the body pass
(`main.rs` lines 100-107) and the footnote pass (lines 183-190): when the
destination ends with `.md`, apply Rust `replace(".md", ".html")` (all
occurrences); otherwise keep the destination. -/
def rewriteDest (d : Str) : Str :=
  if mdSuffix.isSuffixOf d then replaceAll mdSuffix htmlSuffix d else d

/-- obrace is the literal `{` character, written by code so that template
strings below can use escapes uniformly. -/
def obrace : Char := '\x7b'

/-- cbrace is the literal `}` character. -/
def cbrace : Char := '\x7d'

/-- hbRun models the handlebars template engine as configured in both
`main.rs` and `orbit.rs`: `register_escape_fn(no_escape)` is set, so a
`\x7b\x7bname\x7d\x7d` placeholder is replaced by `lookup name` verbatim
(no hypertext escaping) and the substituted value is not re-scanned.
`scanning = false` walks the template text; `scanning = true` accumulates a
placeholder name in `acc` until the closing braces. -/
def hbRun (lookup : Str → Str) : Bool → Str → Str → Str
  | false, _, [] => []
  | false, _, [c] => [c]
  | false, acc, c1 :: c2 :: rest =>
      if c1 = obrace ∧ c2 = obrace then hbRun lookup true [] rest
      else c1 :: hbRun lookup false acc (c2 :: rest)
  | true, acc, [] => lookup acc
  | true, acc, [c] => lookup (acc ++ [c])
  | true, acc, c1 :: c2 :: rest =>
      if c1 = cbrace ∧ c2 = cbrace then lookup acc ++ hbRun lookup false [] rest
      else hbRun lookup true (acc ++ [c1]) (c2 :: rest)
termination_by _ _ s => s.length

/-- OrbitCard embeds the `OrbitCard` struct of `orbit.rs` (three string
fields deserialized from the deck payload). -/
structure OrbitCard where
  question : Str
  question_attachments : Str
  answer : Str
deriving DecidableEq, Repr

/-- Orbit embeds the `Orbit` struct of `orbit.rs`: an ordered deck of
cards. -/
structure Orbit where
  deck : List OrbitCard
deriving DecidableEq, Repr

/-- REVIEW_START_TEMPLATE is the opening container control of `orbit.rs`. -/
def REVIEW_START_TEMPLATE : Str := "<orbit-reviewarea>".data

/-- PROMPT_TEMPLATE is the per-card widget template of `orbit.rs` (braces
written with escapes). -/
def PROMPT_TEMPLATE : Str :=
  ("<orbit-prompt question=\"\x7b\x7bquestion\x7d\x7d\" question-attachments=\"\x7b\x7bquestion-attachments\x7d\x7d\" answer=\"\x7b\x7banswer\x7d\x7d\"></orbit-prompt>").data

/-- REVIEW_END is the closing container control of `orbit.rs`. -/
def REVIEW_END : Str := "</orbit-reviewarea>".data

/-- cardLookup models the `card_map` json object built in
`OrbitCard::to_html` together with handlebars variable lookup. -/
def cardLookup (card : OrbitCard) (name : Str) : Str :=
  if name = "question".data then card.question
  else if name = "question-attachments".data then card.question_attachments
  else if name = "answer".data then card.answer
  else []

/-- OrbitCard.to_html embeds `OrbitCard::to_html` (`orbit.rs` lines 38-53):
render the fixed prompt template with the card's fields, unescaped. -/
def OrbitCard.to_html (card : OrbitCard) : Str :=
  hbRun (cardLookup card) false [] PROMPT_TEMPLATE

/-- Orbit.to_html embeds `Orbit::to_html` (`orbit.rs` lines 18-29): start
from the opening container control, append each card's widget in deck
order, then append the closing container control. -/
def Orbit.to_html (o : Orbit) : Str :=
  (o.deck.foldl (fun acc card => acc ++ card.to_html) REVIEW_START_TEMPLATE) ++ REVIEW_END

/-- CBKind embeds `pulldown_cmark::CodeBlockKind` as used by `main.rs`:
fenced code blocks carry their language tag, indented ones do not. -/
inductive CBKind where
  | fenced (language : Str)
  | indented
deriving DecidableEq, Repr

/-- MdTag embeds the `pulldown_cmark::Tag` variants `main.rs` pattern-matches
on; every other tag is collapsed into the opaque `other` variant, which the
Rust code only ever handles through its wildcard arm. -/
inductive MdTag where
  | link (linkType : Nat) (destination : Str) (title : Str)
  | codeBlock (kind : CBKind)
  | item
  | other (id : Nat)
deriving DecidableEq, Repr

/-- MdEvent embeds the `pulldown_cmark::Event` variants `main.rs`
pattern-matches on (the `End` variant is named `stop` because `end` is a
Lean keyword); every other event is collapsed into the opaque `other`
variant, which the Rust code only ever handles through its wildcard arm. -/
inductive MdEvent where
  | start (tag : MdTag)
  | stop (tag : MdTag)
  | text (s : Str)
  | html (s : Str)
  | footnoteReference (label : Str)
  | other (id : Nat)
deriving DecidableEq, Repr

/-- sliceRange models Rust slicing `&s[a..b]` at character granularity for
the in-bounds ranges handed out by the parser's offset iterator. -/
def sliceRange (s : Str) (a b : Nat) : Str := (s.drop a).take (b - a)

/-- natStr renders a number in decimal, modelling the `\x7b\x7d` formatting
of an integer in Rust `format!`. -/
def natStr (n : Nat) : Str := (toString n).data

/-- footnoteRefHtml is the superscript anchor built for a footnote
reference in `main.rs` line 97. -/
def footnoteRefHtml (label : Str) (n : Nat) : Str :=
  "<sup class=\"fn\"><a id=\"".data ++ label ++ "-back\" href=\"#".data ++
    label ++ "\">[".data ++ natStr n ++ "]</a></sup>".data

/-- BState is the mutable state of the body-pass rewriting loop of
`markdown_to_html`: the `in_orbit_block` flag and the `footnote_no`
counter. -/
structure BState where
  in_orbit_block : Bool
  footnote_no : Nat
deriving DecidableEq, Repr

/-- orbitLang is the literal language tag `orbit`. -/
def orbitLang : Str := "orbit".data

/-- stepBody embeds one iteration of the event loop of `markdown_to_html`
(`main.rs` lines 93-131), arm for arm.  `des` abstracts
`deserialize_orbit_codeblock` as a function from the raw code-block slice
to a deck or an error (its internal fixed-offset slicing is modelled
separately by `deserialize_orbit_codeblock` below); the `?` on it is the
only error exit of the loop.  The result is the updated state plus the
events pushed for this input event. -/
def stepBody (des : Str → Except Str Orbit) (markdown : Str) (st : BState) :
    MdEvent × Nat × Nat → Except Str (BState × List MdEvent)
  | (MdEvent.footnoteReference label, _, _) =>
      .ok ({ st with footnote_no := st.footnote_no + 1 },
        [MdEvent.html (footnoteRefHtml label (st.footnote_no + 1))])
  | (MdEvent.start (MdTag.link lt dest title), _, _) =>
      .ok (st, [MdEvent.start (MdTag.link lt (rewriteDest dest) title)])
  | (MdEvent.start (MdTag.codeBlock (CBKind.fenced language)), a, b) =>
      if language = orbitLang then
        match des (sliceRange markdown a b) with
        | .error e => .error e
        | .ok orbit =>
            .ok ({ st with in_orbit_block := true }, [MdEvent.html orbit.to_html])
      else .ok (st, [])
  | (MdEvent.stop (MdTag.codeBlock (CBKind.fenced language)), _, _) =>
      if language = orbitLang then .ok ({ st with in_orbit_block := false }, [])
      else .ok (st, [])
  | (ev, _, _) => if st.in_orbit_block then .ok (st, []) else .ok (st, [ev])

/-- runBody folds `stepBody` over the parsed event stream, collecting the
pushed events in order and propagating the first error, exactly as the
`for` loop of `markdown_to_html` does. -/
def runBody (des : Str → Except Str Orbit) (markdown : Str) :
    BState → List (MdEvent × Nat × Nat) → Except Str (BState × List MdEvent)
  | st, [] => .ok (st, [])
  | st, e :: rest =>
      match stepBody des markdown st e with
      | .error msg => .error msg
      | .ok (st', out) =>
          match runBody des markdown st' rest with
          | .error msg => .error msg
          | .ok (st'', outs) => .ok (st'', out ++ outs)

/-- isWildcardEv recognises exactly the events that reach the wildcard arm
of the body-pass match in `main.rs` (line 125): everything except footnote
references, link starts, and fenced-code-block start/end events.  Note that
indented code block boundaries do reach the wildcard arm. -/
def isWildcardEv : MdEvent → Bool
  | MdEvent.footnoteReference _ => false
  | MdEvent.start (MdTag.link _ _ _) => false
  | MdEvent.start (MdTag.codeBlock (CBKind.fenced _)) => false
  | MdEvent.stop (MdTag.codeBlock (CBKind.fenced _)) => false
  | _ => true

/-- linesOf models Rust `str::lines`: split on `'\n'`, with no final empty
line for a trailing newline (carriage-return stripping is irrelevant here
and omitted). -/
def linesOf (s : Str) : List Str :=
  if s = [] then []
  else
    let parts := s.splitOn '\n'
    if s.getLast? = some '\n' then parts.dropLast else parts

/-- fnLinePrefix is the literal `[^` prefix that classifies a line as a
footnote definition. -/
def fnLinePrefix : Str := ['[', '^']

/-- split_content_and_footnotes embeds the function of the same name in
`main.rs` (lines 146-159): footnote-definition lines (those starting with
`[^`) are collected in order; the remaining lines are rejoined with
newlines. -/
def split_content_and_footnotes (markdown : Str) : Str × List Str :=
  let ls := linesOf markdown
  (List.intercalate ['\n'] (ls.filter (fun l => !(fnLinePrefix.isPrefixOf l))),
   ls.filter (fun l => fnLinePrefix.isPrefixOf l))

/-- findSub returns the first index at which `pat` occurs in `s`. -/
def findSub (pat : Str) : Str → Option Nat
  | [] => if pat.isEmpty then some 0 else none
  | c :: rest =>
      if pat.isPrefixOf (c :: rest) then some 0
      else (findSub pat rest).map (· + 1)

/-- findSubLast returns the last index at which `pat` occurs in `s`. -/
def findSubLast (pat : Str) : Str → Option Nat
  | [] => if pat.isEmpty then some 0 else none
  | c :: rest =>
      match findSubLast pat rest with
      | some j => some (j + 1)
      | none => if pat.isPrefixOf (c :: rest) then some 0 else none

/-- parseFootnoteLine models `NORMAL_FOOTNOTE.captures` for the regex
`\[\^(.*)\]:(.*)$` of `main.rs` line 19 (the regex crate, external to
src/): the leftmost match starts at the first `[^`; the greedy first group
extends to the last following `]:`; the second group is the rest of the
line.  `none` models a failed match (whose `unwrap` is a panic). -/
def parseFootnoteLine (line : Str) : Option (Str × Str) := do
  let i ← findSub fnLinePrefix line
  let after := line.drop (i + 2)
  let j ← findSubLast [']', ':'] after
  pure (after.take j, after.drop (j + 2))

/-- backArrow is the back-reference arrow text exactly as it appears in the
bytes of `main.rs` line 165 (the literal mojibake sequence). -/
def backArrow : Str := "â†©".data

/-- footnoteItemLine is the string built for one footnote definition by
`format!` in `main.rs` line 165 (note: no trailing newline). -/
def footnoteItemLine (label body : Str) : Str :=
  "1. ".data ++ body ++ " <a class=\"fn-back\" href=\"#".data ++ label ++
    "-back\">".data ++ backArrow ++ "</a>".data

/-- buildSyntheticSource embeds `main.rs` lines 162-167: start from the
separator line `---` plus newline, then append (without any separator) the
formatted item line of each collected footnote definition; a definition
line the regex does not match is a panic (`none`). -/
def buildSyntheticSource (footnotes : List Str) : Option Str := do
  let parts ← footnotes.mapM (fun fn => do
    let (label, body) ← parseFootnoteLine fn
    pure (footnoteItemLine label body))
  pure ("---\n".data ++ parts.flatten)

/-- itemMarker is the ordered-list marker `1. ` used by the synthetic
footnote source. -/
def itemMarker : Str := ['1', '.', ' ']

/-- modelOrderedListEvents is modelled from the spec: the structural parser
applied to the synthetic footnote source is the external markdown library
(pulldown-cmark), not code under src/.  Per the markup language an
ordered-list item begins exactly at a line whose text starts with an
ordered-list marker such as `1. `; a `1.` occurring in the middle of a line
is plain text and starts no item.  At the granularity the claims need, an
item line yields a list-item start, its inline content as text, and a
list-item end; any other line yields an opaque event. -/
def modelOrderedListEvents (src : Str) : List MdEvent :=
  (linesOf src).flatMap (fun line =>
    if itemMarker.isPrefixOf line then
      [MdEvent.start MdTag.item, MdEvent.text (line.drop 3), MdEvent.stop MdTag.item]
    else [MdEvent.other 0])

/-- liOpenHtml is the opening list-item control built in `main.rs` line
181. -/
def liOpenHtml (label : Str) : Str := "<li id=\"".data ++ label ++ "\">".data

/-- mapFootnoteEvents embeds the stateful event map of
`fmt_footnotes_to_html` (`main.rs` lines 176-193): a list-item start is
replaced by an opening control carrying the label of the
`footnote_no`-indexed collected line (indexing past the end or a failed
regex match is a panic, `none`), consuming labels positionally; a link
start gets the `.md` destination rewrite; everything else passes
through. -/
def mapFootnoteEvents (footnotes : List Str) : Nat → List MdEvent → Option (List MdEvent)
  | _, [] => some []
  | n, MdEvent.start MdTag.item :: rest => do
      let line ← footnotes[n]?
      let (label, _) ← parseFootnoteLine line
      let out ← mapFootnoteEvents footnotes (n + 1) rest
      pure (MdEvent.html (liOpenHtml label) :: out)
  | n, MdEvent.start (MdTag.link lt dest title) :: rest => do
      let out ← mapFootnoteEvents footnotes n rest
      pure (MdEvent.start (MdTag.link lt (rewriteDest dest) title) :: out)
  | n, ev :: rest => do
      let out ← mapFootnoteEvents footnotes n rest
      pure (ev :: out)

/-- pushHtml is modelled from the spec: the hypertext serializer
(pulldown-cmark's `push_html`, external to src/).  Raw hypertext events
pass through verbatim, text passes through, link and list-item tags
serialize to their standard controls, and events the claims never inspect
serialize to nothing. -/
def pushHtml : List MdEvent → Str
  | [] => []
  | MdEvent.html s :: rest => s ++ pushHtml rest
  | MdEvent.text s :: rest => s ++ pushHtml rest
  | MdEvent.start (MdTag.link _ d _) :: rest =>
      "<a href=\"".data ++ d ++ "\">".data ++ pushHtml rest
  | MdEvent.stop (MdTag.link _ _ _) :: rest => "</a>".data ++ pushHtml rest
  | MdEvent.start MdTag.item :: rest => "<li>".data ++ pushHtml rest
  | MdEvent.stop MdTag.item :: rest => "</li>".data ++ pushHtml rest
  | _ :: rest => pushHtml rest

/-- fmt_footnotes_to_html embeds the function of the same name in `main.rs`
(lines 161-199), with the external markdown parse modelled by
`modelOrderedListEvents`: build the synthetic source, re-parse it, map the
events, serialize.  A panic along the way is `none`. -/
def fmt_footnotes_to_html (footnotes : List Str) : Option Str := do
  let src ← buildSyntheticSource footnotes
  let out ← mapFootnoteEvents footnotes 0 (modelOrderedListEvents src)
  pure (pushHtml out)

/-- sliceBytes models Rust range slicing `&s[a..b]` with its bounds checks:
the slice exists only when `a ≤ b ≤ s.length`; otherwise indexing panics
(`none`). -/
def sliceBytes (s : Str) (a b : Nat) : Option Str :=
  if a ≤ b ∧ b ≤ s.length then some ((s.drop a).take (b - a)) else none

/-- deserialize_orbit_codeblock embeds the function of the same name in
`main.rs` (lines 201-206), with `serde_json::from_str` (external to src/)
abstracted as `serde`.  The payload is the fixed slice `[9 .. len - 4]` of
the raw block source; `none` models a panic (the `usize` underflow when
`len < 4`, or the slice bounds check), while `some (Except.error _)` is the
recoverable deserialization-error path. -/
def deserialize_orbit_codeblock (serde : Str → Except Str Orbit)
    (codeblock : Str) : Option (Except Str Orbit) :=
  if 4 ≤ codeblock.length then
    match sliceBytes codeblock 9 (codeblock.length - 4) with
    | some json => some (serde json)
    | none => none
  else none

/-- markdown_to_html embeds the function of the same name in `main.rs`
(lines 78-144).  The external markdown parser applied to the cleaned body
is abstracted by passing its event stream `events` alongside the raw
`markdown`; the external page template (`template.html` is not under src/)
is abstracted as the substitution function `page`.  A footnote-pass panic
is conflated into the error exit (either way no value is returned). -/
def markdown_to_html (page : Str → Str) (des : Str → Except Str Orbit)
    (markdown : Str) (events : List (MdEvent × Nat × Nat)) : Except Str Str :=
  let fns := (split_content_and_footnotes markdown).2
  match runBody des markdown ⟨false, 0⟩ events with
  | .error e => .error e
  | .ok (_, evs) =>
      match fmt_footnotes_to_html fns with
      | none => .error "footnote regex unwrap".data
      | some fnHtml => .ok (page (pushHtml evs ++ fnHtml))

/-- convertAndWrite embeds `main.rs` lines 64-67 for one document: the
destination file is created only after `markdown_to_html` returns
successfully (the `?` exits first), so the produced-file list is empty
whenever conversion fails. -/
def convertAndWrite (page : Str → Str) (des : Str → Except Str Orbit)
    (markdown : Str) (events : List (MdEvent × Nat × Nat)) : Except Str (List Str) :=
  match markdown_to_html page des markdown events with
  | .error e => .error e
  | .ok render => .ok [render]

/-- filesProduced lists the destination files a conversion outcome
creates. -/
def filesProduced (r : Except Str (List Str)) : List Str :=
  match r with
  | .ok l => l
  | .error _ => []

deriving instance DecidableEq for Except

theorem skipNewlines_eq_none_of_count_lt :
    ∀ (cs : Str) (n : Nat), countNewlines cs < n → skipNewlines cs n = none := by
  intro cs
  induction cs with
  | nil =>
      intro n h
      cases n with
      | zero => exact absurd h (by simp)
      | succ m => rfl
  | cons c rest ih =>
      intro n h
      cases n with
      | zero => exact absurd h (by simp)
      | succ m =>
          by_cases hc : c = '\n'
          · have hcount : countNewlines (c :: rest) = countNewlines rest + 1 := by
              simp [countNewlines, hc]
            simp only [skipNewlines, if_pos hc]
            exact ih m (by omega)
          · have hcount : countNewlines (c :: rest) = countNewlines rest := by
              simp [countNewlines, List.count_cons, hc]
            simp only [skipNewlines, if_neg hc]
            exact ih (m + 1) (by omega)

theorem skipNewlines_split :
    ∀ (cs : Str) (n : Nat), n ≤ countNewlines cs →
      ∃ s t, cs = s ++ t ∧ countNewlines s = n ∧
        (0 < n → s.getLast? = some '\n') ∧ skipNewlines cs n = some t := by
  intro cs
  induction cs with
  | nil =>
      intro n h
      have : n = 0 := by simpa [countNewlines] using h
      subst this
      exact ⟨[], [], by simp [countNewlines, skipNewlines]⟩
  | cons c rest ih =>
      intro n h
      cases n with
      | zero => exact ⟨[], c :: rest, by simp [countNewlines, skipNewlines]⟩
      | succ m =>
          by_cases hc : c = '\n'
          · have hcount : countNewlines (c :: rest) = countNewlines rest + 1 := by
              simp [countNewlines, hc]
            cases m with
            | zero =>
                refine ⟨[c], rest, by simp, by simp [countNewlines, hc], ?_, ?_⟩
                · intro _
                  simp [hc]
                · simp [skipNewlines, hc]
            | succ k =>
                obtain ⟨s, t, hst, hcnt, hlast, hskip⟩ := ih (k + 1) (by omega)
                refine ⟨c :: s, t, by simp [hst], ?_, ?_, ?_⟩
                · simp [countNewlines, hc, List.count_cons] at hcnt ⊢
                  simpa [countNewlines] using hcnt
                · intro _
                  have hlast' := hlast (by omega)
                  cases hs : s with
                  | nil =>
                      rw [hs] at hlast'
                      simp at hlast'
                  | cons x xs =>
                      rw [hs] at hlast'
                      simpa [List.getLast?_cons_cons] using hlast'
                · simp [skipNewlines, hc, hskip]
          · have hcount : countNewlines (c :: rest) = countNewlines rest := by
              simp [countNewlines, List.count_cons, hc]
            obtain ⟨s, t, hst, hcnt, hlast, hskip⟩ := ih (m + 1) (by omega)
            refine ⟨c :: s, t, by simp [hst], ?_, ?_, ?_⟩
            · simp [countNewlines, List.count_cons, hc] at hcnt ⊢
              simpa [countNewlines] using hcnt
            · intro _
              have hs : s ≠ [] := by
                intro hnil
                rw [hnil] at hcnt
                simp [countNewlines] at hcnt
              cases hsc : s with
              | nil => exact absurd hsc hs
              | cons x xs =>
                  have := hlast (by omega)
                  simpa [hsc, List.getLast?_cons_cons] using (by simpa [hsc] using this)
            · simp [skipNewlines, hc, hskip]

/-- C7: the frontmatter skipper returns exactly the substring after the
6th newline when at least 6 newlines exist (the prefix removed carries
exactly 6 newlines, the last of which is its final character), and the
out-of-bounds fault branch is reached exactly when the text has fewer than
6 newlines. -/
theorem c7_frontmatter_skip (cs : Str) :
    (6 ≤ countNewlines cs →
      ∃ s t, cs = s ++ t ∧ countNewlines s = 6 ∧ s.getLast? = some '\n' ∧
        skipNewlines cs 6 = some t) ∧
    (countNewlines cs < 6 → skipNewlines cs 6 = none) := by
  constructor
  · intro h
    obtain ⟨s, t, hst, hcnt, hlast, hskip⟩ := skipNewlines_split cs 6 h
    exact ⟨s, t, hst, hcnt, hlast (by omega), hskip⟩
  · intro h
    exact skipNewlines_eq_none_of_count_lt cs 6 h

/-- Witness for C7 at a concrete 6-newline frontmatter and at a concrete
3-newline text. -/
theorem c7_frontmatter_skip_witness :
    (∃ s t, "---\na\nb\nc\nd\n---\nbody".data = s ++ t ∧ countNewlines s = 6 ∧
      s.getLast? = some '\n' ∧ skipNewlines "---\na\nb\nc\nd\n---\nbody".data 6 = some t) ∧
    skipNewlines "---\na\n".data 6 = none :=
  ⟨(c7_frontmatter_skip "---\na\nb\nc\nd\n---\nbody".data).1 (by decide),
   (c7_frontmatter_skip "---\na\n".data).2 (by decide)⟩

/-- C10: the frontmatter skipper is not idempotent: on a text of 12
newlines followed by `x`, one application yields the 6-newline tail, and a
second application silently drops that valid 6-newline content, giving a
strict suffix of the first result. -/
theorem c10_skip_not_idempotent :
    skipNewlines (List.replicate 12 '\n' ++ ['x']) 6 =
      some (List.replicate 6 '\n' ++ ['x']) ∧
    skipNewlines (List.replicate 6 '\n' ++ ['x']) 6 = some ['x'] ∧
    (['x'] : Str) ≠ List.replicate 6 '\n' ++ ['x'] ∧
    List.replicate 6 '\n' ++ ['x'] = List.replicate 6 '\n' ++ ['x'] := by
  decide

/-- C9: the deck deserializer extracts exactly the fixed slice
`[9 .. length - 4]` of the raw block source and hands it to the
deserialization library, and for any block source shorter than 13
characters those bounds are invalid, so the extraction faults (`none`)
instead of reaching the recoverable deserialization-error path. -/
theorem c9_deserialize_slice_bounds (serde : Str → Except Str Orbit) (cb : Str) :
    (cb.length < 13 → deserialize_orbit_codeblock serde cb = none) ∧
    (13 ≤ cb.length →
      deserialize_orbit_codeblock serde cb =
        some (serde ((cb.drop 9).take (cb.length - 13)))) := by
  constructor
  · intro h
    by_cases h4 : 4 ≤ cb.length
    · have hno : ¬ (9 ≤ cb.length - 4) := by omega
      simp [deserialize_orbit_codeblock, sliceBytes, h4, hno]
    · simp [deserialize_orbit_codeblock, h4]
  · intro h
    have h4 : 4 ≤ cb.length := by omega
    have hyes : 9 ≤ cb.length - 4 ∧ cb.length - 4 ≤ cb.length := by omega
    have harith : cb.length - 4 - 9 = cb.length - 13 := by omega
    simp [deserialize_orbit_codeblock, sliceBytes, h4, hyes, harith]

/-- Witness for C9 at a fence-only 12-character block (fault) and at a
14-character block (payload slice handed to the deserializer). -/
theorem c9_deserialize_slice_bounds_witness :
    deserialize_orbit_codeblock (fun _ => Except.ok ⟨[]⟩) "```orbit\n```".data = none ∧
    deserialize_orbit_codeblock (fun _ => Except.ok ⟨[]⟩) "```orbit\nX\n```".data =
      some ((fun _ => Except.ok (⟨[]⟩ : Orbit))
        (("```orbit\nX\n```".data.drop 9).take ("```orbit\nX\n```".data.length - 13))) :=
  ⟨(c9_deserialize_slice_bounds (fun _ => Except.ok ⟨[]⟩) "```orbit\n```".data).1 (by decide),
   (c9_deserialize_slice_bounds (fun _ => Except.ok ⟨[]⟩) "```orbit\nX\n```".data).2 (by decide)⟩

theorem replaceAllFuel_nil (fuel : Nat) (pat repl : Str) :
    replaceAllFuel fuel pat repl [] = [] := by
  cases fuel <;> rfl

theorem isPrefixOf_append_left (p : Str) :
    ∀ (s t : Str), p.length ≤ s.length → p.isPrefixOf (s ++ t) = p.isPrefixOf s := by
  induction p with
  | nil => intro s t _; simp [List.isPrefixOf]
  | cons a p' ih =>
      intro s t hlen
      cases s with
      | nil => simp at hlen
      | cons b s' =>
          simp only [List.cons_append, List.isPrefixOf, List.append_eq]
          rw [ih s' t (by simpa using hlen)]

theorem md_trailing_replace (stem : Str)
    (h : containsSub mdSuffix stem = false) :
    replaceAll mdSuffix htmlSuffix (stem ++ mdSuffix) = stem ++ htmlSuffix := by
  have main : ∀ (st : Str) (fuel : Nat), st.length + 3 ≤ fuel →
      containsSub mdSuffix st = false →
      replaceAllFuel fuel mdSuffix htmlSuffix (st ++ mdSuffix) = st ++ htmlSuffix := by
    intro st
    induction st with
    | nil =>
        intro fuel hf _
        obtain ⟨k, rfl⟩ : ∃ k, fuel = k + 1 := ⟨fuel - 1, by omega⟩
        show replaceAllFuel (k + 1) mdSuffix htmlSuffix mdSuffix = htmlSuffix
        have hpre : mdSuffix.isPrefixOf mdSuffix = true := by decide
        simp [replaceAllFuel, mdSuffix, replaceAllFuel_nil, htmlSuffix]
    | cons c rest ih =>
        intro fuel hf hc
        obtain ⟨k, rfl⟩ : ∃ k, fuel = k + 1 := ⟨fuel - 1, by omega⟩
        have hc' : mdSuffix.isPrefixOf (c :: rest) = false ∧
            containsSub mdSuffix rest = false := by
          have := hc
          simp only [containsSub, Bool.or_eq_false_iff] at this
          exact this
        have hnp : mdSuffix.isPrefixOf ((c :: rest) ++ mdSuffix) = false := by
          by_cases hl : mdSuffix.length ≤ (c :: rest).length
          · rw [isPrefixOf_append_left _ _ _ hl]
            exact hc'.1
          · cases rest with
            | nil =>
                show mdSuffix.isPrefixOf [c, '.', 'm', 'd'] = false
                simp [mdSuffix, List.isPrefixOf, show ('m' == '.') = false from rfl]
            | cons x rest' =>
                cases rest' with
                | nil =>
                    show mdSuffix.isPrefixOf [c, x, '.', 'm', 'd'] = false
                    simp [mdSuffix, List.isPrefixOf, show ('d' == '.') = false from rfl]
                | cons y rest'' =>
                    exfalso
                    apply hl
                    simp [mdSuffix]
        have hcond : ¬ (mdSuffix ≠ [] ∧ mdSuffix.isPrefixOf (c :: (rest ++ mdSuffix))) := by
          intro ⟨_, hp⟩
          rw [show (c :: (rest ++ mdSuffix)) = (c :: rest) ++ mdSuffix from rfl, hnp] at hp
          exact Bool.false_ne_true hp
        show replaceAllFuel (k + 1) mdSuffix htmlSuffix (c :: (rest ++ mdSuffix)) =
          c :: (rest ++ htmlSuffix)
        rw [replaceAllFuel, if_neg hcond]
        have hk : rest.length + 3 ≤ k := by
          simp only [List.length_cons] at hf
          omega
        rw [ih k hk hc'.2]
  have hlen : (stem ++ mdSuffix).length = stem.length + 3 := by
    simp [mdSuffix]
  rw [replaceAll, hlen]
  exact main stem (stem.length + 3) (by omega) h

/-- C1 (amended): in both the body pass and the footnote pass a link-start
event is rewritten by `rewriteDest`; a destination NOT ending in `.md` is
byte-identical; a destination ending in `.md` has EVERY occurrence of
`.md` replaced by `.html`, which coincides with replacing the trailing
suffix exactly when `.md` occurs nowhere else (first conjunct). -/
theorem c1_link_md_rewrite (stem d title : Str) (lt n : Nat)
    (des : Str → Except Str Orbit) (markdown : Str) (st : BState)
    (r : Nat × Nat) (footnotes : List Str) :
    (containsSub mdSuffix stem = false →
      rewriteDest (stem ++ mdSuffix) = stem ++ htmlSuffix) ∧
    (mdSuffix.isSuffixOf d = false → rewriteDest d = d) ∧
    stepBody des markdown st (MdEvent.start (MdTag.link lt d title), r) =
      .ok (st, [MdEvent.start (MdTag.link lt (rewriteDest d) title)]) ∧
    mapFootnoteEvents footnotes n [MdEvent.start (MdTag.link lt d title)] =
      some [MdEvent.start (MdTag.link lt (rewriteDest d) title)] := by
  obtain ⟨a, b⟩ := r
  refine ⟨?_, ?_, ?_, ?_⟩
  · intro h
    have hsuf : mdSuffix.isSuffixOf (stem ++ mdSuffix) = true := by
      rw [List.isSuffixOf_iff_suffix]
      exact List.suffix_append stem mdSuffix
    rw [rewriteDest, if_pos hsuf]
    exact md_trailing_replace stem h
  · intro h
    rw [rewriteDest, if_neg (by simp [h])]
  · rfl
  · rfl

/-- Witness for C1 at concrete links: `doc.md` becomes `doc.html`,
`img.png` stays put, and both passes rewrite a concrete link event. -/
theorem c1_link_md_rewrite_witness :
    rewriteDest ("doc".data ++ mdSuffix) = "doc".data ++ htmlSuffix ∧
    rewriteDest "img.png".data = "img.png".data ∧
    stepBody (fun _ => Except.ok ⟨[]⟩) [] ⟨false, 0⟩
      (MdEvent.start (MdTag.link 0 "doc.md".data "t".data), (0, 0)) =
      .ok (⟨false, 0⟩, [MdEvent.start (MdTag.link 0 (rewriteDest "doc.md".data) "t".data)]) ∧
    mapFootnoteEvents [] 0 [MdEvent.start (MdTag.link 0 "doc.md".data "t".data)] =
      some [MdEvent.start (MdTag.link 0 (rewriteDest "doc.md".data) "t".data)] :=
  ⟨(c1_link_md_rewrite "doc".data "img.png".data "t".data 0 0 (fun _ => Except.ok ⟨[]⟩)
      [] ⟨false, 0⟩ (0, 0) []).1 (by decide),
   (c1_link_md_rewrite "doc".data "img.png".data "t".data 0 0 (fun _ => Except.ok ⟨[]⟩)
      [] ⟨false, 0⟩ (0, 0) []).2.1 (by decide),
   (c1_link_md_rewrite "doc".data "doc.md".data "t".data 0 0 (fun _ => Except.ok ⟨[]⟩)
      [] ⟨false, 0⟩ (0, 0) []).2.2.1,
   (c1_link_md_rewrite "doc".data "doc.md".data "t".data 0 0 (fun _ => Except.ok ⟨[]⟩)
      [] ⟨false, 0⟩ (0, 0) []).2.2.2⟩

/-- Counterexample to C1 as stated: the destination `a.md/b.md` ends in
`.md`, but the rendered destination is `a.html/b.html` — Rust `replace`
rewrites every occurrence — not the claimed `a.md/b.html` obtained by
replacing only the trailing suffix. -/
theorem c1_link_md_rewrite_counterexample :
    mdSuffix.isSuffixOf "a.md/b.md".data = true ∧
    rewriteDest "a.md/b.md".data = "a.html/b.html".data ∧
    rewriteDest "a.md/b.md".data ≠ "a.md/b".data ++ htmlSuffix := by
  decide

theorem stepBody_wildcard (des : Str → Except Str Orbit) (md : Str) (st : BState)
    (ev : MdEvent) (a b : Nat) (hw : isWildcardEv ev = true) :
    stepBody des md st (ev, a, b) =
      .ok (st, if st.in_orbit_block then [] else [ev]) := by
  cases ev with
  | footnoteReference l => simp [isWildcardEv] at hw
  | start tag =>
      cases tag with
      | link lt d t => simp [isWildcardEv] at hw
      | codeBlock kind =>
          cases kind with
          | fenced lang => simp [isWildcardEv] at hw
          | indented =>
              simp only [stepBody]
              by_cases hb : st.in_orbit_block <;> simp [hb]
      | item =>
          simp only [stepBody]
          by_cases hb : st.in_orbit_block <;> simp [hb]
      | other i =>
          simp only [stepBody]
          by_cases hb : st.in_orbit_block <;> simp [hb]
  | stop tag =>
      cases tag with
      | link lt d t =>
          simp only [stepBody]
          by_cases hb : st.in_orbit_block <;> simp [hb]
      | codeBlock kind =>
          cases kind with
          | fenced lang => simp [isWildcardEv] at hw
          | indented =>
              simp only [stepBody]
              by_cases hb : st.in_orbit_block <;> simp [hb]
      | item =>
          simp only [stepBody]
          by_cases hb : st.in_orbit_block <;> simp [hb]
      | other i =>
          simp only [stepBody]
          by_cases hb : st.in_orbit_block <;> simp [hb]
  | text s =>
      simp only [stepBody]
      by_cases hb : st.in_orbit_block <;> simp [hb]
  | html s =>
      simp only [stepBody]
      by_cases hb : st.in_orbit_block <;> simp [hb]
  | other i =>
      simp only [stepBody]
      by_cases hb : st.in_orbit_block <;> simp [hb]

theorem runBody_append (des : Str → Except Str Orbit) (md : Str) :
    ∀ (xs ys : List (MdEvent × Nat × Nat)) (st : BState),
    runBody des md st (xs ++ ys) =
      match runBody des md st xs with
      | .error m => .error m
      | .ok (st', out) =>
          match runBody des md st' ys with
          | .error m => .error m
          | .ok (st'', outs) => .ok (st'', out ++ outs) := by
  intro xs
  induction xs with
  | nil =>
      intro ys st
      cases h : runBody des md st ys with
      | error m => simp [runBody, h]
      | ok p => cases p with | mk st2 outs => simp [runBody, h]
  | cons e xs ih =>
      intro ys st
      simp only [List.cons_append, runBody, List.append_eq]
      cases hs : stepBody des md st e with
      | error m => simp
      | ok p =>
          cases p with | mk st' out =>
          simp only [ih ys st']
          cases h2 : runBody des md st' xs with
          | error m => simp [h2]
          | ok q =>
              cases q with | mk st2 out2 =>
              cases h3 : runBody des md st2 ys with
              | error m => simp [h2, h3]
              | ok p3 =>
                  cases p3 with | mk st3 out3 => simp [h2, h3, List.append_assoc]

theorem runBody_drop_wildcards (des : Str → Except Str Orbit) (md : Str) :
    ∀ (mid rest : List (MdEvent × Nat × Nat)) (st : BState),
    st.in_orbit_block = true → (∀ e ∈ mid, isWildcardEv e.1 = true) →
    runBody des md st (mid ++ rest) = runBody des md st rest := by
  intro mid
  induction mid with
  | nil => intro rest st _ _; simp
  | cons e mid' ih =>
      intro rest st hb hw
      obtain ⟨ev, a, b⟩ := e
      have hstep := stepBody_wildcard des md st ev a b (hw (ev, a, b) (by simp))
      rw [hb] at hstep
      simp only [if_true] at hstep
      have hrest := ih rest st hb (fun x hx => hw x (by simp [hx]))
      have hone : runBody des md st ((ev, a, b) :: (mid' ++ rest)) =
          runBody des md st (mid' ++ rest) := by
        simp only [runBody, hstep]
        cases h : runBody des md st (mid' ++ rest) with
        | error m => simp
        | ok p => cases p with | mk st2 outs => simp
      rw [List.cons_append, hone, hrest]

/-- C3 (amended): in the body pass, every event that is not a footnote
reference, not a link start, and not a fenced-code-block start or end
passes through unchanged when outside an orbit block; fenced-code-block
start and end events whose language tag is NOT `orbit` are dropped (only
their enclosed text survives), contrary to the claim's "appear
unchanged". -/
theorem c3_passthrough_amended (des : Str → Except Str Orbit) (md : Str)
    (st : BState) (ev : MdEvent) (a b : Nat) (lang : Str) :
    (isWildcardEv ev = true → st.in_orbit_block = false →
      stepBody des md st (ev, a, b) = .ok (st, [ev])) ∧
    (lang ≠ orbitLang →
      stepBody des md st (MdEvent.start (MdTag.codeBlock (CBKind.fenced lang)), a, b) =
        .ok (st, []) ∧
      stepBody des md st (MdEvent.stop (MdTag.codeBlock (CBKind.fenced lang)), a, b) =
        .ok (st, [])) := by
  constructor
  · intro hw hb
    rw [stepBody_wildcard des md st ev a b hw, hb]
    simp
  · intro hl
    constructor <;> simp [stepBody, hl]

/-- Witness for C3 (amended) at a concrete paragraph-start event outside
any orbit block and at a concrete `rust`-tagged fenced block boundary. -/
theorem c3_passthrough_amended_witness :
    stepBody (fun _ => Except.ok ⟨[]⟩) [] ⟨false, 0⟩ (MdEvent.other 7, 0, 0) =
      .ok (⟨false, 0⟩, [MdEvent.other 7]) ∧
    stepBody (fun _ => Except.ok ⟨[]⟩) [] ⟨false, 0⟩
      (MdEvent.start (MdTag.codeBlock (CBKind.fenced "rust".data)), 0, 0) = .ok (⟨false, 0⟩, []) ∧
    stepBody (fun _ => Except.ok ⟨[]⟩) [] ⟨false, 0⟩
      (MdEvent.stop (MdTag.codeBlock (CBKind.fenced "rust".data)), 0, 0) = .ok (⟨false, 0⟩, []) :=
  ⟨(c3_passthrough_amended (fun _ => Except.ok ⟨[]⟩) [] ⟨false, 0⟩ (MdEvent.other 7) 0 0
      "rust".data).1 (by decide) rfl,
   ((c3_passthrough_amended (fun _ => Except.ok ⟨[]⟩) [] ⟨false, 0⟩ (MdEvent.other 7) 0 0
      "rust".data).2 (by decide)).1,
   ((c3_passthrough_amended (fun _ => Except.ok ⟨[]⟩) [] ⟨false, 0⟩ (MdEvent.other 7) 0 0
      "rust".data).2 (by decide)).2⟩

/-- Counterexample to C3 as stated: the start event of a fenced code block
tagged `rust` (not `orbit`, outside any orbit block) does NOT appear in the
output event stream — the body pass drops it entirely. -/
theorem c3_fenced_dropped_counterexample :
    runBody (fun _ => Except.ok ⟨[]⟩) [] ⟨false, 0⟩
      [(MdEvent.start (MdTag.codeBlock (CBKind.fenced "rust".data)), 0, 0)] =
      .ok (⟨false, 0⟩, []) ∧
    ([] : List MdEvent) ≠ [MdEvent.start (MdTag.codeBlock (CBKind.fenced "rust".data))] := by
  exact ⟨rfl, by decide⟩

/-- C4: between the start of an `orbit`-tagged fenced block and its end
marker, no event that the parser emits there (inside a fenced code block
the parser only emits text, handled by the wildcard arm) reaches the
output: the run of the whole stream equals the run with the in-between
events removed. -/
theorem c4_orbit_block_suppression (des : Str → Except Str Orbit) (md : Str)
    (pre mid post : List (MdEvent × Nat × Nat)) (r r' : Nat × Nat) (st : BState) :
    (∀ e ∈ mid, isWildcardEv e.1 = true) →
    runBody des md st (pre ++ (MdEvent.start (MdTag.codeBlock (CBKind.fenced orbitLang)), r) ::
        (mid ++ (MdEvent.stop (MdTag.codeBlock (CBKind.fenced orbitLang)), r') :: post)) =
      runBody des md st (pre ++ (MdEvent.start (MdTag.codeBlock (CBKind.fenced orbitLang)), r) ::
        (MdEvent.stop (MdTag.codeBlock (CBKind.fenced orbitLang)), r') :: post) := by
  intro hw
  rw [runBody_append, runBody_append]
  cases h : runBody des md st pre with
  | error m => rfl
  | ok p =>
      cases p with | mk st1 out1 =>
      obtain ⟨a, b⟩ := r
      simp only [runBody, stepBody, eq_self_iff_true, if_true]
      cases hd : des (sliceRange md a b) with
      | error m => rfl
      | ok orb =>
          have hdrop := runBody_drop_wildcards des md mid
            ((MdEvent.stop (MdTag.codeBlock (CBKind.fenced orbitLang)), r') :: post)
            ⟨true, st1.footnote_no⟩ rfl hw
          simp only [hdrop]
          simp only [runBody, stepBody, eq_self_iff_true, if_true, List.nil_append]

/-- Witness for C4: a concrete text event inside a concrete orbit block is
suppressed from the output. -/
theorem c4_orbit_block_suppression_witness :
    (∀ e ∈ [((MdEvent.text "hidden".data : MdEvent), (0, 0))], isWildcardEv e.1 = true) ∧
    runBody (fun _ => Except.ok ⟨[]⟩) [] ⟨false, 0⟩
      ([] ++ (MdEvent.start (MdTag.codeBlock (CBKind.fenced orbitLang)), ((0 : Nat), (0 : Nat))) ::
        ([(MdEvent.text "hidden".data, (0, 0))] ++
          (MdEvent.stop (MdTag.codeBlock (CBKind.fenced orbitLang)), ((0 : Nat), (0 : Nat))) :: [])) =
      runBody (fun _ => Except.ok ⟨[]⟩) [] ⟨false, 0⟩
        ([] ++ (MdEvent.start (MdTag.codeBlock (CBKind.fenced orbitLang)), ((0 : Nat), (0 : Nat))) ::
          (MdEvent.stop (MdTag.codeBlock (CBKind.fenced orbitLang)), ((0 : Nat), (0 : Nat))) :: []) :=
  ⟨by decide,
   c4_orbit_block_suppression (fun _ => Except.ok ⟨[]⟩) [] []
     [(MdEvent.text "hidden".data, (0, 0))] [] (0, 0) (0, 0) ⟨false, 0⟩ (by decide)⟩

/-- C8: when the deserializer fails on the payload of an `orbit`-tagged
fenced block that conversion reaches, the whole document conversion
returns that error, and the produced-file list is empty — the destination
file is only ever created after conversion succeeds, so the destination is
unchanged. -/
theorem c8_decode_error_no_file (page : Str → Str) (des : Str → Except Str Orbit)
    (markdown : Str) (pre rest : List (MdEvent × Nat × Nat)) (r : Nat × Nat)
    (st1 : BState) (out1 : List MdEvent) (e : Str) :
    runBody des markdown ⟨false, 0⟩ pre = .ok (st1, out1) →
    des (sliceRange markdown r.1 r.2) = .error e →
    markdown_to_html page des markdown
        (pre ++ (MdEvent.start (MdTag.codeBlock (CBKind.fenced orbitLang)), r) :: rest) =
      .error e ∧
    filesProduced (convertAndWrite page des markdown
        (pre ++ (MdEvent.start (MdTag.codeBlock (CBKind.fenced orbitLang)), r) :: rest)) =
      [] := by
  intro hpre hdes
  obtain ⟨a, b⟩ := r
  have hrun : runBody des markdown ⟨false, 0⟩
      (pre ++ (MdEvent.start (MdTag.codeBlock (CBKind.fenced orbitLang)), (a, b)) :: rest) =
      .error e := by
    rw [runBody_append, hpre]
    simp only [runBody, stepBody, eq_self_iff_true, if_true, hdes]
  refine ⟨?_, ?_⟩
  · simp [markdown_to_html, hrun]
  · simp [filesProduced, convertAndWrite, markdown_to_html, hrun]

/-- Witness for C8 at a concrete document whose single event is an orbit
block start with an always-failing deserializer. -/
theorem c8_decode_error_no_file_witness :
    markdown_to_html id (fun _ => Except.error "missing field".data) "".data
        ([] ++ (MdEvent.start (MdTag.codeBlock (CBKind.fenced orbitLang)), ((0 : Nat), (0 : Nat))) :: []) =
      .error "missing field".data ∧
    filesProduced (convertAndWrite id (fun _ => Except.error "missing field".data) "".data
        ([] ++ (MdEvent.start (MdTag.codeBlock (CBKind.fenced orbitLang)), ((0 : Nat), (0 : Nat))) :: [])) =
      [] :=
  c8_decode_error_no_file id (fun _ => Except.error "missing field".data) "".data
    [] [] (0, 0) ⟨false, 0⟩ [] "missing field".data rfl rfl

/-- C2: demonstration of the divergence on the failing input of two
collected definition lines `[^a]:x` and `[^b]:y`.  Because the renderer
appends the formatted `1. ...` item lines without any separating newline
(`main.rs` line 166), the synthetic source holds a SINGLE item line, the
re-parse yields exactly one list-item start instead of M = 2, and the
rendered footnote block contains one opening list-item control (carrying
only the first label) rather than two. -/
theorem c2_footnote_items_collapse :
    (buildSyntheticSource ["[^a]:x".data, "[^b]:y".data]).map
        (fun src => (modelOrderedListEvents src).count (MdEvent.start MdTag.item)) =
      some 1 ∧
    (["[^a]:x".data, "[^b]:y".data] : List Str).length = 2 ∧
    (fmt_footnotes_to_html ["[^a]:x".data, "[^b]:y".data]).map
        (containsSub "<li id=\"a\"".data) = some true ∧
    (fmt_footnotes_to_html ["[^a]:x".data, "[^b]:y".data]).map
        (containsSub "<li id=\"b\"".data) = some false ∧
    fmt_footnotes_to_html ["[^a]:x".data] =
      some ("<li id=\"a\">x <a class=\"fn-back\" href=\"#a-back\">â†©</a></li>".data) := by
  decide

/-- C5: demonstration of the divergence on the failing input of two
references `[^a]` `[^b]` with matching definitions `[^a]:x` and `[^b]:y`.
The body pass does number the two superscript anchors 1 and 2 in order
with targets `#a` and `#b`, but — the two definitions collapsing into one
list item (missing newline, `main.rs` line 166) — the rendered footnote
block carries no `id="b"` anchor at all, so the second reference's target
does not match any definition anchor id. -/
theorem c5_backref_target_missing :
    runBody (fun _ => Except.ok ⟨[]⟩) [] ⟨false, 0⟩
        [(MdEvent.footnoteReference "a".data, 0, 0),
         (MdEvent.footnoteReference "b".data, 0, 0)] =
      .ok (⟨false, 2⟩,
        [MdEvent.html (footnoteRefHtml "a".data 1),
         MdEvent.html (footnoteRefHtml "b".data 2)]) ∧
    containsSub "href=\"#b\"".data (footnoteRefHtml "b".data 2) = true ∧
    containsSub "[2]".data (footnoteRefHtml "b".data 2) = true ∧
    (fmt_footnotes_to_html ["[^a]:x".data, "[^b]:y".data]).map
        (containsSub "id=\"a\"".data) = some true ∧
    (fmt_footnotes_to_html ["[^a]:x".data, "[^b]:y".data]).map
        (containsSub "id=\"b\"".data) = some false := by
  decide

theorem foldl_append_cards (f : OrbitCard → Str) :
    ∀ (l : List OrbitCard) (init : Str),
    l.foldl (fun acc c => acc ++ f c) init = init ++ (l.map f).flatten := by
  intro l
  induction l with
  | nil => intro init; simp
  | cons c l ih => intro init; simp [ih, List.append_assoc]

/-- C6: for any deck, the rendered widget sequence is the opening container
control, then one self-closing widget control per card in deck order, then
the closing container control; each widget carries the card's three fields
verbatim (spliced with no hypertext-escaping) as its attributes. -/
theorem c6_deck_widgets (o : Orbit) :
    Orbit.to_html o =
      REVIEW_START_TEMPLATE ++ (o.deck.map OrbitCard.to_html).flatten ++ REVIEW_END ∧
    (∀ card : OrbitCard, OrbitCard.to_html card =
      "<orbit-prompt question=\"".data ++ card.question ++
        "\" question-attachments=\"".data ++ card.question_attachments ++
        "\" answer=\"".data ++ card.answer ++ "\"></orbit-prompt>".data) := by
  constructor
  · rw [Orbit.to_html, foldl_append_cards]
  · intro card
    simp [OrbitCard.to_html, PROMPT_TEMPLATE, hbRun, cardLookup, obrace, cbrace]
